import Mathlib

/-!
Verification development for the Iraa voice-assistant repository.

This file gives a shallow embedding, in Lean 4, of the orchestration core of
the repository — the reminder scheduling engine (src/scheduler_jobs.py), the
calendar-mirror upsert (src/db.py), the day-plan aggregator
(src/scheduler_jobs.py), the "what is next" handler (src/agent.py), the
heartbeat watchdog (src/uptime_monitor.py) and the conversational main loop
(src/app.py) — together with theorems settling the testable properties of its
specification.

Modelling conventions:
- Timestamps are whole seconds.  The scheduler, database and agenda use `ℤ`;
  the source uses POSIX floats, but every property at stake concerns order
  comparisons and fixed whole-second offsets, which the restriction preserves.
  The watchdog uses `ℚ` because its rate limit multiplies the timeout by 0.5.
- Python datetimes are modelled by `PyDT`, which records whether the value is
  timezone-aware; comparing an aware and a naive datetime raises `TypeError`
  in Python 3, which the embedding models with `Except`.
- Python dicts keyed by strings are modelled as association lists; updates of
  the scheduler dict only ever insert a key that a lookup just reported
  absent, which keeps the association-list semantics exact.
- Collaborator calls (speech, network, DB connections, APScheduler) are
  inputs or opaque parameters: a listen result is a `String` argument, job
  registration success is a `String → Bool` predicate, and so on.

The file is laid out as definitions first, then the theorems about them.
-/

/-! ## Python string primitives

The control loop in src/app.py classifies transcripts with `str.lower`,
`str.strip`, `str.split` and the `in` substring operator.  Core Lean string
functions are defined by well-founded recursion on byte positions and do not
reduce in the kernel, so the embedding re-implements them structurally over
`String.data`. -/

/-- Embeds Python `str.lower` (ASCII case folding suffices for the phrases
the source matches against). -/
def pyLower (s : String) : String := ⟨s.data.map Char.toLower⟩

/-- Embeds Python `str.strip`: drop whitespace from both ends. -/
def pyStrip (s : String) : String :=
  ⟨((s.data.dropWhile Char.isWhitespace).reverse.dropWhile Char.isWhitespace).reverse⟩

/-- Helper for `pySplitWs`: accumulate the current word (reversed) while
scanning the character list. -/
def pySplitWsAux : List Char → List Char → List String
  | [], acc => if acc.isEmpty then [] else [⟨acc.reverse⟩]
  | c :: rest, acc =>
    if c.isWhitespace then
      if acc.isEmpty then pySplitWsAux rest []
      else (⟨acc.reverse⟩ : String) :: pySplitWsAux rest []
    else pySplitWsAux rest (c :: acc)

/-- Embeds Python `str.split()` with no argument: split on whitespace runs,
discarding empty fields. -/
def pySplitWs (s : String) : List String := pySplitWsAux s.data []

/-- Embeds Python `" ".join(words)`. -/
def joinSpace : List String → String
  | [] => ""
  | [w] => w
  | w :: rest => w ++ " " ++ joinSpace rest

/-- Embeds `" ".join(s.split())`, the whitespace normalisation used by
`check_sleep_mode` in src/app.py. -/
def pyNormalizeWs (s : String) : String := joinSpace (pySplitWs s)

/-- Decides whether `needle` occurs as a contiguous sublist of `hay`. -/
def listIsInfixOf [DecidableEq α] : List α → List α → Bool
  | needle, [] => needle.isEmpty
  | needle, a :: rest => needle.isPrefixOf (a :: rest) || listIsInfixOf needle rest

/-- Embeds the Python substring operator `needle in hay`. -/
def strContains (hay needle : String) : Bool := listIsInfixOf needle.data hay.data

/-! ## Python datetimes

`PyDT` models a `datetime.datetime` value as a timestamp in whole seconds
together with its timezone-awareness.  Python 3 raises `TypeError` when an
aware and a naive datetime are compared with `<` or `>`. -/

/-- Models a Python `datetime`: `aware` records whether `tzinfo` is set. -/
structure PyDT where
  aware : Bool
  ts : ℤ
deriving DecidableEq, Repr

/-- Embeds the Python comparison `a > b` on datetimes: raises `TypeError`
when exactly one operand is timezone-aware. -/
def pyDtGt (a b : PyDT) : Except String Bool :=
  if a.aware ≠ b.aware then .error "TypeError"
  else .ok (decide (a.ts > b.ts))

/-! ## Agenda items and the day plan (src/scheduler_jobs.py)

An agenda item is one entry of the in-memory day plan built by
`_rebuild_day_plan`: calendar events from `_list_today_events` and local DB
rows from `_list_local_schedules`.  Both source functions localise every
start time (`astimezone` / `tz.localize`), so every item they produce is
timezone-aware. -/

/-- Tags the origin of an agenda item (the `source` field in the source). -/
inductive ItemSource where
  | calendar
  | localDb
deriving DecidableEq, Repr

/-- Models one entry of the day plan: `id`, `source`, `summary`, localized
start datetime `start_dt` and the preformatted display string `when`. -/
structure AgendaItem where
  source : ItemSource
  id : String
  summary : String
  start_dt : PyDT
  whenStr : String
deriving DecidableEq, Repr

/-! ## The "what is next" handler (src/agent.py, `handle_schedule_next`)

The source takes the day plan, sets `now = datetime.now()` (naive), scans for
the first item with `start_dt > now`, and otherwise reports the last item of
the day; any exception is caught and answered with a fixed apology. -/

/-- Embeds the scan `for it in plan: if hasattr(dt, "timestamp") and dt > now`
from `handle_schedule_next`; the comparison can raise. -/
def findUpcoming (now : PyDT) : List AgendaItem → Except String (Option AgendaItem)
  | [] => .ok none
  | it :: rest => do
    let gt ← pyDtGt it.start_dt now
    if gt then .ok (some it) else findUpcoming now rest

/-- Embeds `handle_schedule_next` from src/agent.py (lines 616-640): the
returned string is what `speak` receives.  `now` is the value of
`datetime.now()`, which the source constructs without a timezone. -/
def handleScheduleNext (plan : List AgendaItem) (now : PyDT) : String :=
  if plan.isEmpty then "You don\x27t have any more items scheduled today, sir."
  else
    match findUpcoming now plan with
    | .error _ => "I couldn\x27t determine your next item."
    | .ok (some it) => "Up next, sir: " ++ it.summary ++ " at " ++ it.whenStr ++ "."
    | .ok none =>
      match plan.getLast? with
      | some last =>
        "The last thing on your calendar today was " ++ last.summary ++ " at " ++
          last.whenStr ++ ", sir."
      | none => "You don\x27t have any more items scheduled today, sir."

/-- Specification reading of the same handler (for comparison): report the
first item with a start time after `now`, else the chronologically last item,
ignoring timezone-awareness the way the spec scenario does. -/
def handleScheduleNextSpec (plan : List AgendaItem) (now : ℤ) : String :=
  if plan.isEmpty then "You don\x27t have any more items scheduled today, sir."
  else
    match plan.find? (fun it => decide (it.start_dt.ts > now)) with
    | some it => "Up next, sir: " ++ it.summary ++ " at " ++ it.whenStr ++ "."
    | none =>
      match plan.getLast? with
      | some last =>
        "The last thing on your calendar today was " ++ last.summary ++ " at " ++
          last.whenStr ++ ", sir."
      | none => "You don\x27t have any more items scheduled today, sir."

/-- Concrete failing input for the handler: the spec scenario plan (Standup at
15:00, Call vendor at 16:00, both timezone-aware as the aggregator builds
them) queried at 14:00 local time. -/
def scenarioPlan : List AgendaItem :=
  [⟨ItemSource.calendar, "ev1", "Standup", ⟨true, 54000⟩, "03:00 PM on 12 Oct"⟩,
   ⟨ItemSource.localDb, "sch_1", "Call vendor", ⟨true, 57600⟩, "04:00 PM on 12 Oct"⟩]

/-- Value of the naive `datetime.now()` at 14:00 in the scenario. -/
def scenarioNow : PyDT := ⟨false, 50400⟩

/-! ## The heartbeat watchdog (src/uptime_monitor.py, class `Watchdog`)

The constructor clamps `timeout` to at least 10 seconds and initialises
`_last` to the current monotonic clock and `_last_alert` to `0.0`.  `beat()`
stores the current monotonic time; the monitor thread wakes every interval,
reads `age()`, and fires `on_stall` only when the age exceeds the timeout and
at least `timeout * 0.5` has passed since the previous alert.  The embedding
is a transition system over the fields read and written under the lock; a
trace interleaves `beat` calls and monitor wake-ups, each carrying the
monotonic clock value at which it runs. -/

/-- Models the watchdog fields touched by `beat` and `_monitor_loop`:
`timeout`, `_last` and `_last_alert` (monotonic seconds). -/
structure WdState where
  timeout : ℚ
  last : ℚ
  lastAlert : ℚ
deriving DecidableEq, Repr

/-- Embeds `Watchdog.__init__`: `timeout = max(10.0, timeout)`,
`_last = time.monotonic()` (the construction instant `t0`),
`_last_alert = 0.0`. -/
def wdInit (timeout t0 : ℚ) : WdState := ⟨max 10 timeout, t0, 0⟩

/-- Embeds `Watchdog.beat()` executed at monotonic time `t`. -/
def wdBeat (s : WdState) (t : ℚ) : WdState := { s with last := t }

/-- Embeds one wake-up of `Watchdog._monitor_loop` at monotonic time `t`:
returns the new state and whether `on_stall` was invoked. -/
def wdTick (s : WdState) (t : ℚ) : WdState × Bool :=
  if t - s.last ≤ s.timeout then (s, false)
  else if t - s.lastAlert < s.timeout * (1/2) then (s, false)
  else ({ s with lastAlert := t }, true)

/-- One event of a watchdog trace: a `beat()` call or a monitor wake-up,
tagged with the monotonic time at which it runs. -/
inductive WdEvent where
  | beat (t : ℚ)
  | tick (t : ℚ)

/-- Runs a trace of events from a state, collecting the times at which
`on_stall` fired, in order. -/
def wdRun (s : WdState) : List WdEvent → WdState × List ℚ
  | [] => (s, [])
  | .beat t :: evs => wdRun (wdBeat s t) evs
  | .tick t :: evs =>
    let step := wdTick s t
    let rest := wdRun step.1 evs
    (rest.1, if step.2 then t :: rest.2 else rest.2)

/-! ## Reminder scheduling (src/scheduler_jobs.py, `_schedule_event_reminders`)

The routine walks every upcoming item, and for every lead offset computes
`run_at = start_dt - timedelta(minutes=lead)`.  Past run times are skipped.
Under the module lock it prunes the dedup dict `_scheduled_keys`, consults it
for `key = f"{ev_id}|{lead}"`, records `key -> run_at.timestamp()` when
absent, and only then attempts `sched.add_job`; a registration failure is
printed and the batch continues. -/

/-- Models one upcoming item handed to `_schedule_event_reminders` (the merge
of `_list_upcoming_events` and `_list_upcoming_schedules`): its `id` and the
localized start time in seconds.  The source skips items whose id is falsy,
which the embedding renders as the empty string. -/
structure RemItem where
  id : String
  start_ts : ℤ
deriving DecidableEq, Repr

/-- Models the module-level dict `_scheduled_keys : dict[str, float]` as an
association list from key to the stored run timestamp. -/
abbrev KeyMap := List (String × ℤ)

/-- Looks a key up in the dict model (first matching entry). -/
def lookupKey (m : KeyMap) (k : String) : Option ℤ :=
  (m.find? (fun p => p.1 == k)).map Prod.snd

/-- Embeds `_prune_scheduled_keys` (src/scheduler_jobs.py lines 25-29): drop
every entry whose stored timestamp is more than `maxAgeHours` (default 48)
hours before `nowTs`. -/
def pruneScheduledKeys (m : KeyMap) (nowTs : ℤ) (maxAgeHours : ℤ := 48) : KeyMap :=
  m.filter (fun p => !decide (p.2 < nowTs - maxAgeHours * 3600))

/-- Models one successfully registered one-shot reminder job
(`sched.add_job(_job, "date", run_date=run_at, id=f"ev_{ev_id}_{lead}")`). -/
structure RemJob where
  key : String
  runAt : ℤ
  evId : String
  lead : ℤ
deriving DecidableEq, Repr

/-- Embeds the dedup key `f"{ev_id}|{lead}"`. -/
def reminderKey (evId : String) (lead : ℤ) : String := evId ++ "|" ++ toString lead

/-- Embeds the inner `for lead in leads_min` loop of
`_schedule_event_reminders` for one item: skip past run times; prune and
consult the dict under the lock; record the key before `sched.add_job` is
attempted.  `addJobOk key = false` models `sched.add_job` raising, whose
`except` branch logs and moves on.  `now` stands for both `datetime.now(tz)`
and the `time.time()` sample `now_ts`, taken at the same instant in the
source; `run_at.timestamp()` is `runAt` on the shared seconds scale. -/
def schedLeads (now : ℤ) (addJobOk : String → Bool) (ev : RemItem) :
    List ℤ → KeyMap → List RemJob → KeyMap × List RemJob
  | [], m, jobs => (m, jobs)
  | lead :: rest, m, jobs =>
    let runAt := ev.start_ts - lead * 60
    if runAt ≤ now then schedLeads now addJobOk ev rest m jobs
    else
      let m1 := pruneScheduledKeys m now
      let key := reminderKey ev.id lead
      if (lookupKey m1 key).isSome then schedLeads now addJobOk ev rest m1 jobs
      else
        let m2 := (key, runAt) :: m1
        if addJobOk key then
          schedLeads now addJobOk ev rest m2 (jobs ++ [⟨key, runAt, ev.id, lead⟩])
        else
          schedLeads now addJobOk ev rest m2 jobs

/-- Embeds the outer `for ev in items` loop: items with a falsy id are
skipped (`if not ev_id or not isinstance(start_dt, datetime): continue`; the
datetime check always passes under this typing). -/
def schedItems (now : ℤ) (addJobOk : String → Bool) (leads : List ℤ) :
    List RemItem → KeyMap → List RemJob → KeyMap × List RemJob
  | [], m, jobs => (m, jobs)
  | ev :: rest, m, jobs =>
    if ev.id = "" then schedItems now addJobOk leads rest m jobs
    else
      let step := schedLeads now addJobOk ev leads m jobs
      schedItems now addJobOk leads rest step.1 step.2

/-- Embeds `_schedule_event_reminders` (src/scheduler_jobs.py lines 358-398)
over a fixed batch of upcoming items, returning the final dedup dict and the
jobs registered in this pass. -/
def scheduleEventReminders (items : List RemItem) (leads : List ℤ) (now : ℤ)
    (addJobOk : String → Bool) (m0 : KeyMap) : KeyMap × List RemJob :=
  schedItems now addJobOk leads items m0 []

/-- Invariant tying a jobs list to the dedup dict: every registered job has
its key stored with exactly its run timestamp, that run timestamp is in the
future, and no key was registered twice. -/
def JobsInv (now : ℤ) (m : KeyMap) (jobs : List RemJob) : Prop :=
  (∀ j ∈ jobs, lookupKey m j.key = some j.runAt ∧ now < j.runAt) ∧
    (jobs.map RemJob.key).Nodup

/-! ## The calendar-mirror upsert (src/db.py, `upsert_schedule_from_calendar`)

The function selects `id FROM schedules WHERE user_id=%s AND note=%s AND
due_dt=%s LIMIT 1` with `note = f"calendar:{source_id}"`; when a row exists it
updates that row's `item` and `note`, otherwise it inserts a fresh row.  The
embedding models the table as a row list plus the auto-increment counter. -/

/-- Models one row of the `schedules` table (the columns the upsert and the
agenda queries touch). -/
structure SchedRow where
  rid : ℕ
  user_id : String
  item : String
  due_ts : ℤ
  note : String
deriving DecidableEq, Repr

/-- Models the `schedules` table with its auto-increment primary key. -/
structure SchedTable where
  rows : List SchedRow
  nextId : ℕ
deriving DecidableEq, Repr

/-- Embeds the Python default `note or f"calendar:{source_id}"` (both `None`
and the empty string are falsy). -/
def noteOrDefault (note : Option String) (sourceId : String) : String :=
  match note with
  | none => "calendar:" ++ sourceId
  | some s => if s = "" then "calendar:" ++ sourceId else s

/-- Decides the dedup key match of the upsert's SELECT:
`user_id=%s AND note="calendar:"+source_id AND due_dt=%s`. -/
def schedKeyMatch (userId sourceId : String) (due : ℤ) (r : SchedRow) : Bool :=
  r.user_id == userId && r.note == ("calendar:" ++ sourceId) && r.due_ts == due

/-- Embeds `upsert_schedule_from_calendar` (src/db.py lines 201-218).  The
caller in `_rebuild_day_plan` always omits `note`. -/
def upsertScheduleFromCalendar (t : SchedTable) (userId item : String) (due : ℤ)
    (sourceId : String) (note : Option String := none) : SchedTable :=
  match t.rows.find? (schedKeyMatch userId sourceId due) with
  | some row =>
    { t with
      rows := t.rows.map fun r =>
        if r.rid = row.rid then { r with item := item, note := noteOrDefault note sourceId }
        else r }
  | none =>
    { rows := t.rows ++ [⟨t.nextId, userId, item, due, noteOrDefault note sourceId⟩],
      nextId := t.nextId + 1 }

/-- Well-formedness of the table model: primary keys are distinct and below
the auto-increment counter (as MySQL auto-increment guarantees). -/
def TableWF (t : SchedTable) : Prop :=
  (t.rows.map SchedRow.rid).Nodup ∧ ∀ r ∈ t.rows, r.rid < t.nextId

/-! ## Rebuilding the day plan (src/scheduler_jobs.py, `_rebuild_day_plan`)

The rebuild concatenates the two collaborator query results, mirrors every
calendar-sourced item into the schedules table via the idempotent upsert, and
sorts the merged list ascending by `start_dt` (all items are localized, hence
mutually comparable), caching it with today's date string. -/

/-- Sort relation of `items.sort(key=lambda x: x.get("start_dt"))`: compare
start timestamps (every item in the plan is timezone-aware). -/
def agendaLE (a b : AgendaItem) : Prop := a.start_dt.ts ≤ b.start_dt.ts

instance : DecidableRel agendaLE :=
  fun a b => inferInstanceAs (Decidable (a.start_dt.ts ≤ b.start_dt.ts))

instance : IsTotal AgendaItem agendaLE :=
  ⟨fun a b => le_total a.start_dt.ts b.start_dt.ts⟩

instance : IsTrans AgendaItem agendaLE :=
  ⟨fun _ _ _ hab hbc => le_trans hab hbc⟩

/-- Models the module-level cache `_day_plan` / `_day_plan_date`. -/
structure DayPlanState where
  day_plan : List AgendaItem
  day_plan_date : Option String
deriving DecidableEq, Repr

/-- Embeds `_rebuild_day_plan` (src/scheduler_jobs.py lines 170-200).
`calItems` and `localItems` are the results of `_list_today_events` and
`_list_local_schedules` (each already degraded to `[]` on collaborator
failure); `todayStr` is today's date string.  Returns the plan, the updated
cache and the mirrored schedules table. -/
def rebuildDayPlan (userId : String) (calItems localItems : List AgendaItem)
    (todayStr : String) (table : SchedTable) :
    List AgendaItem × DayPlanState × SchedTable :=
  let items := calItems ++ localItems
  let table' := items.foldl
    (fun tb it =>
      if it.source = ItemSource.calendar ∧ it.id ≠ "" then
        upsertScheduleFromCalendar tb userId it.summary it.start_dt.ts it.id
      else tb)
    table
  let sorted := List.insertionSort agendaLE items
  (sorted, ⟨sorted, some todayStr⟩, table')

/-! ## The conversational main loop (src/app.py, `main`)

One iteration of the `while True` loop is modelled as a pure function of the
session state and of this iteration's collaborator results.  The playback
flag is treated as constant within the iteration.  The intent-dispatch tail
(src/app.py lines 388-553) touches no session field other than
`conversation_active` (through `enter_music_sleep_if_needed`) and performs no
watchdog beat, so it is abstracted as a function returning the new value of
`conversation_active` and what was spoken. -/

/-- Models the mutable session fields of `main()`: `conversation_active`,
`silent_turns`, `first_wakeup` and the module-level `_SLEEP_REQUESTED`. -/
structure SessState where
  conversationActive : Bool
  silentTurns : ℕ
  firstWakeup : Bool
  sleepRequested : Bool
deriving DecidableEq, Repr

/-- Result of one loop iteration: the new session state, how many times
`main_watchdog.beat()` ran, what the loop itself spoke, and whether
`sys.exit` was reached. -/
structure IterOut where
  state : SessState
  beats : ℕ
  spoken : List String
  exited : Bool
deriving DecidableEq, Repr

/-- Embeds the `WAKE_WORDS` tuple of src/app.py. -/
def wakeWords : List String :=
  ["hello assistant", "hey assistant", "assistant", "ira", "iraa", "hey ira",
   "hey iraa", "hey buddy", "hello ira", "hello iraa", "hello buddy"]

/-- Embeds `heard_wake_word` (src/app.py lines 160-165). -/
def heardWakeWord (transcript : String) : Bool :=
  if transcript = "" then false
  else wakeWords.any (fun w => strContains (pyLower transcript) w)

/-- Models one entry of the `sleep_triggers` table in `check_sleep_mode`. -/
structure SleepTrigger where
  phrases : List String
  response : String
  matchExact : Bool

/-- Embeds the `sleep_triggers` list of `check_sleep_mode` (src/app.py
lines 273-285), in source order. -/
def sleepTriggers : List SleepTrigger :=
  [⟨["thank you", "thanks"], "Always a pleasure, sir. I\x27ll be right here when you call.", false⟩,
   ⟨["bye", "goodbye"], "Goodbye for now, sir. I\x27ll be right here when you call.", false⟩,
   ⟨["stop"], "Understood, sir. I\x27ll slip into sleep mode until you wake me.", false⟩,
   ⟨["dhanyvad"], "Shukriya, sir. I\x27ll rest for now—call me anytime.", false⟩,
   ⟨["sleep mode"], "Sliding into sleep mode now, sir.", false⟩,
   ⟨["go to sleep"], "Heading into sleep mode now, sir.", false⟩,
   ⟨["sleep now"], "I\x27ll rest for now, sir. Wake me anytime.", false⟩,
   ⟨["rest now", "take rest"], "Taking a quick rest now, sir.", false⟩,
   ⟨["good night"], "Good night, sir. I\x27ll be here when you wake me.", false⟩,
   ⟨["sleep please"], "Of course, sir. Going to sleep now.", true⟩,
   ⟨["sleep"], "Of course, sir. Going to sleep now.", true⟩]

/-- Result of `check_sleep_mode`: whether it returned `True`, whether it
reached `sys.exit`, the updated session fields, and what it spoke. -/
structure SleepCheck where
  handled : Bool
  exited : Bool
  state : SessState
  spoken : List String
deriving DecidableEq, Repr

/-- Embeds `check_sleep_mode` (src/app.py lines 258-306): empty text is not
handled; an "exit" substring powers the process down; otherwise the first
matching sleep trigger sets the sleep flag, leaves the conversation and
answers with its response. -/
def checkSleepMode (s : SessState) (text : String) : SleepCheck :=
  if text = "" then ⟨false, false, s, []⟩
  else
    let uLower := pyStrip (pyLower text)
    let normalized := pyNormalizeWs uLower
    if strContains uLower "exit" then
      ⟨true, true, s,
        ["I\x27ll power down now, sir. Just wake me when you need me again."]⟩
    else
      match sleepTriggers.findSome? (fun tr =>
        if tr.phrases.any (fun p =>
            if tr.matchExact then normalized == p else strContains normalized p)
        then some tr.response else none) with
      | some resp =>
        ⟨true, false, { s with sleepRequested := true, conversationActive := false }, [resp]⟩
      | none => ⟨false, false, s, []⟩

/-- Embeds the `music_control_intents` set of `main()`. -/
def musicControlIntents : List String := ["spotify_pause", "spotify_next", "spotify_toggle"]

/-- Embeds the idle notice spoken through `prompt_if_music_idle` after three
silent turns. -/
def idleNotice : String :=
  "I\x27m not hearing anything, so I\x27ll wait quietly. Just call me back when you\x27re ready."

/-- Embeds one iteration of the `while True` loop of `main()` (src/app.py
lines 308-553).  `spotify` is `is_spotify_playback_active()` (constant within
the iteration), `idleT` and `activeT` the transcripts the two `listen_once`
calls return, `greet` the result of `greeting()`, `detectIntent` the
classifier, and `dispatchTail` the abstracted intent-dispatch tail.  `beats`
counts `main_watchdog.beat()` calls: one at the loop top plus one immediately
after whichever listen runs. -/
def loopIter (spotify : Bool) (idleT activeT greet : String)
    (detectIntent : String → String)
    (dispatchTail : String → String → Bool → Bool × List String)
    (s0 : SessState) : IterOut :=
  let s1 := if s0.conversationActive then s0
            else { s0 with silentTurns := 0, sleepRequested := false }
  if s1.sleepRequested && s1.conversationActive then
    ⟨{ s1 with conversationActive := false }, 1, [], false⟩
  else if !s1.conversationActive then
    let wake := pyLower idleT
    let ck := checkSleepMode s1 wake
    if ck.handled then ⟨ck.state, 2, ck.spoken, ck.exited⟩
    else if spotify && musicControlIntents.contains (detectIntent wake) then
      let sA := { s1 with conversationActive := true, sleepRequested := false }
      if detectIntent wake = "spotify_pause" then ⟨sA, 2, [], false⟩
      else
        ⟨{ sA with conversationActive := if spotify then false else sA.conversationActive },
          2, [], false⟩
    else if !heardWakeWord wake then ⟨s1, 2, [], false⟩
    else
      let sW := { s1 with conversationActive := true, sleepRequested := false }
      if s1.firstWakeup then
        ⟨{ sW with firstWakeup := false }, 2,
          [greet ++ " sir! What can I take care of for you today?"], false⟩
      else ⟨sW, 2, ["Hey sir, welcome back! What can I do for you this time?"], false⟩
  else
    let utter := activeT
    if utter = "" then
      let n := s1.silentTurns + 1
      if n ≥ 3 then
        ⟨{ s1 with silentTurns := 0, conversationActive := false }, 2,
          if spotify then [] else [idleNotice], false⟩
      else ⟨{ s1 with silentTurns := n }, 2, [], false⟩
    else
      let s2 := { s1 with silentTurns := 0 }
      let ck := checkSleepMode s2 utter
      if ck.handled then ⟨ck.state, 2, ck.spoken, ck.exited⟩
      else
        let intent := detectIntent utter
        if spotify && !musicControlIntents.contains intent then ⟨s2, 2, [], false⟩
        else
          let tail := dispatchTail intent utter s2.conversationActive
          ⟨{ s2 with conversationActive := tail.1 }, 2, tail.2, false⟩

/-! ## Theorems -/

/-! ### C9 — the "what is next" handler -/

/-- C9 (code bug): `handle_schedule_next` compares every timezone-aware
`start_dt` of the plan against the naive `datetime.now()`; Python 3 raises
`TypeError`, the handler's blanket `except` swallows it, and the user hears
the apology instead of the next item.  At the spec's own scenario input
(plan Standup 15:00 / Call vendor 16:00, query at 14:00) the code answers
the apology, while the claim (and the spec scenario) require
"Up next: Standup at 03:00 PM". -/
theorem c9_schedule_next_naive_now_bug :
    handleScheduleNext scenarioPlan scenarioNow = "I couldn\x27t determine your next item." ∧
    handleScheduleNextSpec scenarioPlan 50400 =
      "Up next, sir: Standup at 03:00 PM on 12 Oct." := by
  constructor <;> rfl

/-! ### Watchdog lemmas and C2 -/

/-- Characterises a silent monitor wake-up: either the loop has been beating
recently, or an alert fired less than half a timeout ago. -/
theorem wdTick_silent (s : WdState) (t : ℚ)
    (h : t - s.last ≤ s.timeout ∨ t - s.lastAlert < s.timeout * (1/2)) :
    wdTick s t = (s, false) := by
  unfold wdTick
  rcases h with h1 | h2
  · rw [if_pos h1]
  · by_cases h1 : t - s.last ≤ s.timeout
    · rw [if_pos h1]
    · rw [if_neg h1, if_pos h2]

/-- Characterises a firing monitor wake-up: the age exceeds the timeout and at
least half a timeout has passed since the previous alert. -/
theorem wdTick_fires (s : WdState) (t : ℚ)
    (h1 : ¬ t - s.last ≤ s.timeout) (h2 : ¬ t - s.lastAlert < s.timeout * (1/2)) :
    wdTick s t = ({ s with lastAlert := t }, true) := by
  unfold wdTick
  rw [if_neg h1, if_neg h2]

/-- Neither beats nor ticks change the configured timeout. -/
theorem wdRun_timeout (s : WdState) (evs : List WdEvent) :
    (wdRun s evs).1.timeout = s.timeout := by
  induction evs generalizing s with
  | nil => rfl
  | cons ev evs ih =>
    cases ev with
    | beat t => simpa [wdRun, wdBeat] using ih (wdBeat s t)
    | tick t =>
      simp only [wdRun]
      by_cases h1 : t - s.last ≤ s.timeout
      · rw [wdTick_silent s t (Or.inl h1)]
        exact ih s
      · by_cases h2 : t - s.lastAlert < s.timeout * (1/2)
        · rw [wdTick_silent s t (Or.inr h2)]
          exact ih s
        · rw [wdTick_fires s t h1 h2]
          exact ih { s with lastAlert := t }

/-- Each alert of a run happens at least `timeout/2` after the alert time
recorded in the starting state, and consecutive alerts are at least
`timeout/2` apart. -/
theorem wdRun_alerts_chain (evs : List WdEvent) (s : WdState) :
    List.Chain (fun a b => a + s.timeout * (1/2) ≤ b) s.lastAlert (wdRun s evs).2 := by
  induction evs generalizing s with
  | nil => exact List.Chain.nil
  | cons ev evs ih =>
    cases ev with
    | beat t => simpa [wdRun, wdBeat] using ih (wdBeat s t)
    | tick t =>
      simp only [wdRun]
      by_cases h1 : t - s.last ≤ s.timeout
      · rw [wdTick_silent s t (Or.inl h1)]
        simpa using ih s
      · by_cases h2 : t - s.lastAlert < s.timeout * (1/2)
        · rw [wdTick_silent s t (Or.inr h2)]
          simpa using ih s
        · rw [wdTick_fires s t h1 h2]
          have hgap' : s.lastAlert + s.timeout * (1/2) ≤ t := by
            have := not_lt.mp h2
            linarith
          have hrec : List.Chain (fun a b => a + s.timeout * (1/2) ≤ b) t
              (wdRun { s with lastAlert := t } evs).2 := ih { s with lastAlert := t }
          have hcons : List.Chain (fun a b => a + s.timeout * (1/2) ≤ b) s.lastAlert
              (t :: (wdRun { s with lastAlert := t } evs).2) := List.Chain.cons hgap' hrec
          simpa using hcons

/-- Converts a chain anchored at `a` into the adjacent-pairs chain of its
list. -/
theorem chain_to_chainPairs {α : Type} {R : α → α → Prop} {a : α} :
    ∀ {l : List α}, List.Chain R a l → List.Chain' R l
  | [], _ => trivial
  | _ :: _, h => (List.chain_cons.mp h).2

/-- C2: heartbeat-monitor rate limiting.  First conjunct: whenever a monitor
wake-up at time `t` sees an age above the timeout and at least `timeout/2`
since the previous alert, `on_stall` is invoked at that very wake-up and the
alert time is recorded.  Second conjunct: along any trace of beats and
wake-ups from a freshly constructed watchdog, consecutive `on_stall`
invocation times are at least `timeout/2` apart, no matter how long the
staleness persists. -/
theorem c2_watchdog_stall_rate_limit (s : WdState) (t : ℚ) (timeout t0 : ℚ)
    (evs : List WdEvent)
    (hstall : s.timeout < t - s.last)
    (hgap : s.timeout * (1/2) ≤ t - s.lastAlert) :
    ((wdTick s t).2 = true ∧ (wdTick s t).1.lastAlert = t) ∧
      List.Chain' (fun a b => a + (wdInit timeout t0).timeout * (1/2) ≤ b)
        (wdRun (wdInit timeout t0) evs).2 := by
  constructor
  · rw [wdTick_fires s t (not_le.mpr hstall) (not_lt.mpr hgap)]
    exact ⟨rfl, rfl⟩
  · exact chain_to_chainPairs (wdRun_alerts_chain evs (wdInit timeout t0))

/-- Witness for C2 at concrete inputs: a watchdog with timeout 20 whose last
beat was at time 5, ticked at time 30 with the last alert at time 0, over a
trace that beats at 1 and ticks at 40 and 45 (the 45 tick falls inside the
rate-limit window of the 40 alert). -/
theorem c2_watchdog_stall_rate_limit_witness :
    ((wdTick ⟨20, 5, 0⟩ 30).2 = true ∧ (wdTick ⟨20, 5, 0⟩ 30).1.lastAlert = 30) ∧
      List.Chain' (fun a b => a + (wdInit 20 1).timeout * (1/2) ≤ b)
        (wdRun (wdInit 20 1) [.beat 1, .tick 40, .tick 45]).2 :=
  c2_watchdog_stall_rate_limit ⟨20, 5, 0⟩ 30 20 1 [.beat 1, .tick 40, .tick 45]
    (by norm_num) (by norm_num)

/-! ### Dedup-dict lemmas -/

/-- Lookup in a dict with a front entry: hit the front key or recurse. -/
theorem lookupKey_cons (p : String × ℤ) (m : KeyMap) (k : String) :
    lookupKey (p :: m) k = if p.1 == k then some p.2 else lookupKey m k := by
  by_cases hb : (p.1 == k) = true
  · rw [if_pos hb]
    unfold lookupKey
    rw [List.find?_cons_of_pos (p := fun q => q.1 == k) (a := p) m hb]
    rfl
  · rw [if_neg hb]
    unfold lookupKey
    rw [List.find?_cons_of_neg (p := fun q => q.1 == k) (a := p) m hb]

/-- Entries surviving a prune are entries of the original dict. -/
theorem prune_subset {m : KeyMap} {nowTs maxA : ℤ} {p : String × ℤ}
    (h : p ∈ pruneScheduledKeys m nowTs maxA) : p ∈ m :=
  (List.mem_filter.mp h).1

/-- Entries surviving a prune are not stale. -/
theorem prune_not_stale {m : KeyMap} {nowTs maxA : ℤ} {p : String × ℤ}
    (h : p ∈ pruneScheduledKeys m nowTs maxA) : ¬ p.2 < nowTs - maxA * 3600 := by
  have := (List.mem_filter.mp h).2
  simpa using this

/-- A successful lookup exhibits an entry of the dict. -/
theorem lookupKey_mem {m : KeyMap} {k : String} {ts : ℤ}
    (h : lookupKey m k = some ts) : (k, ts) ∈ m := by
  induction m with
  | nil => simp [lookupKey] at h
  | cons p rest ih =>
    rw [lookupKey_cons] at h
    by_cases hpk : (p.1 == k) = true
    · rw [if_pos hpk] at h
      have h1 : p.1 = k := by simpa using hpk
      have h2 : p.2 = ts := by simpa using h
      have hp : p = (k, ts) := by
        cases p
        simp_all
      rw [← hp]
      exact List.mem_cons_self _ _
    · rw [if_neg hpk] at h
      exact List.mem_cons_of_mem _ (ih h)

/-- A non-stale entry found by lookup survives pruning with the same value:
pruning filters in order, so the first match stays the first match. -/
theorem lookupKey_prune {m : KeyMap} {nowTs maxA : ℤ} {k : String} {ts : ℤ}
    (h : lookupKey m k = some ts) (hts : ¬ ts < nowTs - maxA * 3600) :
    lookupKey (pruneScheduledKeys m nowTs maxA) k = some ts := by
  induction m with
  | nil => simp [lookupKey] at h
  | cons p rest ih =>
    rw [lookupKey_cons] at h
    simp only [pruneScheduledKeys, List.filter_cons] at ih ⊢
    by_cases hpk : (p.1 == k) = true
    · rw [if_pos hpk] at h
      have h2 : p.2 = ts := by simpa using h
      have hkeep : (!decide (p.2 < nowTs - maxA * 3600)) = true := by
        rw [h2]; simpa using hts
      rw [if_pos hkeep, lookupKey_cons, if_pos hpk, h2]
    · rw [if_neg hpk] at h
      by_cases hkeep : (!decide (p.2 < nowTs - maxA * 3600)) = true
      · rw [if_pos hkeep, lookupKey_cons, if_neg hpk]
        exact ih h
      · rw [if_neg hkeep]
        exact ih h

/-- A lookup that succeeds on a pruned dict returns a non-stale value. -/
theorem lookupKey_prune_not_stale {m : KeyMap} {nowTs maxA : ℤ} {k : String} {ts : ℤ}
    (h : lookupKey (pruneScheduledKeys m nowTs maxA) k = some ts) :
    ¬ ts < nowTs - maxA * 3600 :=
  prune_not_stale (lookupKey_mem h)

/-- Consing a key that is absent from the dict preserves other lookups. -/
theorem lookupKey_cons_preserve {m1 : KeyMap} {key k : String} {v ts : ℤ}
    (hk : lookupKey m1 k = some ts) (hnone : lookupKey m1 key = none) :
    lookupKey ((key, v) :: m1) k = some ts := by
  have hne : (key == k) = false := by
    by_contra hcon
    have : (key == k) = true := by
      cases hb : (key == k) <;> simp_all
    have : key = k := by simpa using this
    rw [this, hk] at hnone
    exact Option.noConfusion hnone
  rw [lookupKey_cons]
  simpa [hne] using hk

/-! ### Scheduling-pass invariants -/

/-- A non-stale dict entry survives the whole inner lead loop with its value:
pruning keeps it, and insertions only add keys that were just looked up as
absent. -/
theorem schedLeads_lookup_mono (now : ℤ) (ok : String → Bool) (ev : RemItem)
    (leads : List ℤ) (m : KeyMap) (jobs : List RemJob) (k : String) (ts : ℤ)
    (h : lookupKey m k = some ts) (hts : ¬ ts < now - 48 * 3600) :
    lookupKey (schedLeads now ok ev leads m jobs).1 k = some ts := by
  induction leads generalizing m jobs with
  | nil => exact h
  | cons lead rest ih =>
    simp only [schedLeads]
    by_cases h1 : ev.start_ts - lead * 60 ≤ now
    · rw [if_pos h1]
      exact ih m jobs h
    · rw [if_neg h1]
      have hp : lookupKey (pruneScheduledKeys m now) k = some ts := lookupKey_prune h hts
      by_cases h2 : (lookupKey (pruneScheduledKeys m now) (reminderKey ev.id lead)).isSome = true
      · rw [if_pos h2]
        exact ih _ _ hp
      · rw [if_neg h2]
        have hnone : lookupKey (pruneScheduledKeys m now) (reminderKey ev.id lead) = none := by
          cases hc : lookupKey (pruneScheduledKeys m now) (reminderKey ev.id lead) with
          | none => rfl
          | some v => rw [hc] at h2; simp at h2
        have hc : lookupKey
            ((reminderKey ev.id lead, ev.start_ts - lead * 60) :: pruneScheduledKeys m now) k =
            some ts := lookupKey_cons_preserve hp hnone
        by_cases h3 : ok (reminderKey ev.id lead) = true
        · rw [if_pos h3]
          exact ih _ _ hc
        · rw [if_neg h3]
          exact ih _ _ hc

/-- Lifts `schedLeads_lookup_mono` over the whole batch. -/
theorem schedItems_lookup_mono (now : ℤ) (ok : String → Bool) (leads : List ℤ)
    (items : List RemItem) (m : KeyMap) (jobs : List RemJob) (k : String) (ts : ℤ)
    (h : lookupKey m k = some ts) (hts : ¬ ts < now - 48 * 3600) :
    lookupKey (schedItems now ok leads items m jobs).1 k = some ts := by
  induction items generalizing m jobs with
  | nil => exact h
  | cons ev rest ih =>
    simp only [schedItems]
    by_cases h1 : ev.id = ""
    · rw [if_pos h1]
      exact ih m jobs h
    · rw [if_neg h1]
      exact ih _ _ (schedLeads_lookup_mono now ok ev leads m jobs k ts h hts)

/-- Converts a failed `isSome` test into `= none`. -/
theorem isSome_false_eq_none {o : Option ℤ} (h : ¬ o.isSome = true) : o = none := by
  cases o with
  | none => rfl
  | some v => simp at h

/-- Pruning at the pass's own clock preserves the jobs invariant: every
registered run timestamp is in the future, hence inside the 48-hour
retention window. -/
theorem JobsInv_prune {now : ℤ} {m : KeyMap} {jobs : List RemJob}
    (h : JobsInv now m jobs) : JobsInv now (pruneScheduledKeys m now) jobs := by
  refine ⟨fun j hj => ?_, h.2⟩
  obtain ⟨hl, hr⟩ := h.1 j hj
  exact ⟨lookupKey_prune hl (by omega), hr⟩

/-- Inserting a key just looked up as absent preserves the jobs invariant. -/
theorem JobsInv_insert_key {now : ℤ} {m1 : KeyMap} {jobs : List RemJob}
    {key : String} {v : ℤ}
    (h : JobsInv now m1 jobs) (hnone : lookupKey m1 key = none) :
    JobsInv now ((key, v) :: m1) jobs := by
  refine ⟨fun j hj => ?_, h.2⟩
  obtain ⟨hl, hr⟩ := h.1 j hj
  exact ⟨lookupKey_cons_preserve hl hnone, hr⟩

/-- Recording a fresh key together with its registered job preserves the jobs
invariant; the key cannot collide with an earlier job because its lookup just
returned `none`. -/
theorem JobsInv_insert_job {now : ℤ} {m1 : KeyMap} {jobs : List RemJob}
    {key evId : String} {v lead : ℤ}
    (h : JobsInv now m1 jobs) (hnone : lookupKey m1 key = none) (hv : now < v) :
    JobsInv now ((key, v) :: m1) (jobs ++ [⟨key, v, evId, lead⟩]) := by
  constructor
  · intro j hj
    rcases List.mem_append.mp hj with hj | hj
    · obtain ⟨hl, hr⟩ := h.1 j hj
      exact ⟨lookupKey_cons_preserve hl hnone, hr⟩
    · have hje : j = ⟨key, v, evId, lead⟩ := by simpa using hj
      subst hje
      refine ⟨?_, hv⟩
      rw [lookupKey_cons]
      simp
  · rw [List.map_append]
    refine List.nodup_append.mpr ⟨h.2, by simp, ?_⟩
    intro a ha hb
    have hak : a = key := by simpa using hb
    subst hak
    obtain ⟨j, hj, hjk⟩ := List.mem_map.mp ha
    obtain ⟨hl, _⟩ := h.1 j hj
    rw [hjk, hnone] at hl
    exact Option.noConfusion hl

/-- The jobs invariant is preserved across the inner lead loop. -/
theorem schedLeads_JobsInv (now : ℤ) (ok : String → Bool) (ev : RemItem)
    (leads : List ℤ) :
    ∀ (m : KeyMap) (jobs : List RemJob), JobsInv now m jobs →
      JobsInv now (schedLeads now ok ev leads m jobs).1 (schedLeads now ok ev leads m jobs).2 := by
  induction leads with
  | nil => intro m jobs h; exact h
  | cons lead rest ih =>
    intro m jobs h
    simp only [schedLeads]
    by_cases h1 : ev.start_ts - lead * 60 ≤ now
    · rw [if_pos h1]
      exact ih m jobs h
    · rw [if_neg h1]
      have hpr := JobsInv_prune h
      by_cases h2 : (lookupKey (pruneScheduledKeys m now) (reminderKey ev.id lead)).isSome = true
      · rw [if_pos h2]
        exact ih _ _ hpr
      · rw [if_neg h2]
        have hnone := isSome_false_eq_none h2
        by_cases h3 : ok (reminderKey ev.id lead) = true
        · rw [if_pos h3]
          exact ih _ _ (JobsInv_insert_job hpr hnone (by omega))
        · rw [if_neg h3]
          exact ih _ _ (JobsInv_insert_key hpr hnone)

/-- The jobs invariant is preserved across the whole batch. -/
theorem schedItems_JobsInv (now : ℤ) (ok : String → Bool) (leads : List ℤ)
    (items : List RemItem) :
    ∀ (m : KeyMap) (jobs : List RemJob), JobsInv now m jobs →
      JobsInv now (schedItems now ok leads items m jobs).1
        (schedItems now ok leads items m jobs).2 := by
  induction items with
  | nil => intro m jobs h; exact h
  | cons ev rest ih =>
    intro m jobs h
    simp only [schedItems]
    by_cases h1 : ev.id = ""
    · rw [if_pos h1]
      exact ih m jobs h
    · rw [if_neg h1]
      exact ih _ _ (schedLeads_JobsInv now ok ev leads m jobs h)

/-- No job is registered for a key that the dict already holds with a
non-stale value: the duplicate check sees the surviving entry and skips. -/
theorem schedLeads_no_rereg (now : ℤ) (ok : String → Bool) (ev : RemItem)
    (leads : List ℤ) :
    ∀ (m : KeyMap) (jobs : List RemJob) (k : String) (ts : ℤ),
      lookupKey m k = some ts → ¬ ts < now - 48 * 3600 →
      ∀ j ∈ (schedLeads now ok ev leads m jobs).2, j ∈ jobs ∨ j.key ≠ k := by
  induction leads with
  | nil => intro m jobs k ts _ _ j hj; exact Or.inl hj
  | cons lead rest ih =>
    intro m jobs k ts hk hts j hj
    simp only [schedLeads] at hj
    by_cases h1 : ev.start_ts - lead * 60 ≤ now
    · rw [if_pos h1] at hj
      exact ih m jobs k ts hk hts j hj
    · rw [if_neg h1] at hj
      have hp : lookupKey (pruneScheduledKeys m now) k = some ts := lookupKey_prune hk hts
      by_cases h2 : (lookupKey (pruneScheduledKeys m now) (reminderKey ev.id lead)).isSome = true
      · rw [if_pos h2] at hj
        exact ih _ _ k ts hp hts j hj
      · rw [if_neg h2] at hj
        have hnone := isSome_false_eq_none h2
        have hne : reminderKey ev.id lead ≠ k := by
          intro he
          rw [he, hp] at hnone
          exact Option.noConfusion hnone
        have hc : lookupKey
            ((reminderKey ev.id lead, ev.start_ts - lead * 60) :: pruneScheduledKeys m now) k =
            some ts := lookupKey_cons_preserve hp hnone
        by_cases h3 : ok (reminderKey ev.id lead) = true
        · rw [if_pos h3] at hj
          rcases ih _ _ k ts hc hts j hj with hin | hnk
          · rcases List.mem_append.mp hin with hin | hin
            · exact Or.inl hin
            · have hje : j = ⟨reminderKey ev.id lead, ev.start_ts - lead * 60, ev.id, lead⟩ := by
                simpa using hin
              right
              rw [hje]
              exact hne
          · exact Or.inr hnk
        · rw [if_neg h3] at hj
          exact ih _ _ k ts hc hts j hj

/-- Lifts `schedLeads_no_rereg` over the whole batch. -/
theorem schedItems_no_rereg (now : ℤ) (ok : String → Bool) (leads : List ℤ)
    (items : List RemItem) :
    ∀ (m : KeyMap) (jobs : List RemJob) (k : String) (ts : ℤ),
      lookupKey m k = some ts → ¬ ts < now - 48 * 3600 →
      ∀ j ∈ (schedItems now ok leads items m jobs).2, j ∈ jobs ∨ j.key ≠ k := by
  induction items with
  | nil => intro m jobs k ts _ _ j hj; exact Or.inl hj
  | cons ev rest ih =>
    intro m jobs k ts hk hts j hj
    simp only [schedItems] at hj
    by_cases h1 : ev.id = ""
    · rw [if_pos h1] at hj
      exact ih m jobs k ts hk hts j hj
    · rw [if_neg h1] at hj
      have hstep := schedLeads_lookup_mono now ok ev leads m jobs k ts hk hts
      rcases ih _ _ k ts hstep hts j hj with hin | hnk
      · exact schedLeads_no_rereg now ok ev leads m jobs k ts hk hts j hin
      · exact Or.inr hnk

/-- Every job a lead loop adds was accepted by the job runner. -/
theorem schedLeads_jobs_ok (now : ℤ) (ok : String → Bool) (ev : RemItem)
    (leads : List ℤ) :
    ∀ (m : KeyMap) (jobs : List RemJob),
      ∀ j ∈ (schedLeads now ok ev leads m jobs).2, j ∈ jobs ∨ ok j.key = true := by
  induction leads with
  | nil => intro m jobs j hj; exact Or.inl hj
  | cons lead rest ih =>
    intro m jobs j hj
    simp only [schedLeads] at hj
    by_cases h1 : ev.start_ts - lead * 60 ≤ now
    · rw [if_pos h1] at hj
      exact ih m jobs j hj
    · rw [if_neg h1] at hj
      by_cases h2 : (lookupKey (pruneScheduledKeys m now) (reminderKey ev.id lead)).isSome = true
      · rw [if_pos h2] at hj
        exact ih _ _ j hj
      · rw [if_neg h2] at hj
        by_cases h3 : ok (reminderKey ev.id lead) = true
        · rw [if_pos h3] at hj
          rcases ih _ _ j hj with hin | hok
          · rcases List.mem_append.mp hin with hin | hin
            · exact Or.inl hin
            · have hje : j = ⟨reminderKey ev.id lead, ev.start_ts - lead * 60, ev.id, lead⟩ := by
                simpa using hin
              right
              rw [hje]
              exact h3
          · exact Or.inr hok
        · rw [if_neg h3] at hj
          exact ih _ _ j hj

/-- Every job the batch adds was accepted by the job runner. -/
theorem schedItems_jobs_ok (now : ℤ) (ok : String → Bool) (leads : List ℤ)
    (items : List RemItem) :
    ∀ (m : KeyMap) (jobs : List RemJob),
      ∀ j ∈ (schedItems now ok leads items m jobs).2, j ∈ jobs ∨ ok j.key = true := by
  induction items with
  | nil => intro m jobs j hj; exact Or.inl hj
  | cons ev rest ih =>
    intro m jobs j hj
    simp only [schedItems] at hj
    by_cases h1 : ev.id = ""
    · rw [if_pos h1] at hj
      exact ih m jobs j hj
    · rw [if_neg h1] at hj
      rcases ih _ _ j hj with hin | hok
      · exact schedLeads_jobs_ok now ok ev leads m jobs j hin
      · exact Or.inr hok

/-- Every entry of the dict after a lead loop is either an original entry or
records a strictly future run timestamp. -/
theorem schedLeads_entries (now : ℤ) (ok : String → Bool) (ev : RemItem)
    (leads : List ℤ) :
    ∀ (m : KeyMap) (jobs : List RemJob),
      ∀ p ∈ (schedLeads now ok ev leads m jobs).1, p ∈ m ∨ now < p.2 := by
  induction leads with
  | nil => intro m jobs p hp; exact Or.inl hp
  | cons lead rest ih =>
    intro m jobs p hp
    simp only [schedLeads] at hp
    by_cases h1 : ev.start_ts - lead * 60 ≤ now
    · rw [if_pos h1] at hp
      exact ih m jobs p hp
    · rw [if_neg h1] at hp
      by_cases h2 : (lookupKey (pruneScheduledKeys m now) (reminderKey ev.id lead)).isSome = true
      · rw [if_pos h2] at hp
        rcases ih _ _ p hp with hin | hlt
        · exact Or.inl (prune_subset hin)
        · exact Or.inr hlt
      · rw [if_neg h2] at hp
        have hstep : ∀ q ∈ (reminderKey ev.id lead, ev.start_ts - lead * 60) ::
            pruneScheduledKeys m now, q ∈ m ∨ now < q.2 := by
          intro q hq
          rcases List.mem_cons.mp hq with hq | hq
          · right
            rw [hq]
            omega
          · exact Or.inl (prune_subset hq)
        by_cases h3 : ok (reminderKey ev.id lead) = true
        · rw [if_pos h3] at hp
          rcases ih _ _ p hp with hin | hlt
          · exact hstep p hin
          · exact Or.inr hlt
        · rw [if_neg h3] at hp
          rcases ih _ _ p hp with hin | hlt
          · exact hstep p hin
          · exact Or.inr hlt

/-- Every entry of the dict after the batch is either an original entry or
records a strictly future run timestamp. -/
theorem schedItems_entries (now : ℤ) (ok : String → Bool) (leads : List ℤ)
    (items : List RemItem) :
    ∀ (m : KeyMap) (jobs : List RemJob),
      ∀ p ∈ (schedItems now ok leads items m jobs).1, p ∈ m ∨ now < p.2 := by
  induction items with
  | nil => intro m jobs p hp; exact Or.inl hp
  | cons ev rest ih =>
    intro m jobs p hp
    simp only [schedItems] at hp
    by_cases h1 : ev.id = ""
    · rw [if_pos h1] at hp
      exact ih m jobs p hp
    · rw [if_neg h1] at hp
      rcases ih _ _ p hp with hin | hlt
      · exact schedLeads_entries now ok ev leads m jobs p hin
      · exact Or.inr hlt

/-- After the inner loop has processed a lead whose run time is still in the
future, the dedup dict holds that key (it either survived or was just
recorded), with a value inside the retention window. -/
theorem schedLeads_covers (now : ℤ) (ok : String → Bool) (ev : RemItem) :
    ∀ (leads : List ℤ) (m : KeyMap) (jobs : List RemJob) (lead : ℤ),
      lead ∈ leads → now < ev.start_ts - lead * 60 →
      ∃ ts, lookupKey (schedLeads now ok ev leads m jobs).1 (reminderKey ev.id lead) =
          some ts ∧ ¬ ts < now - 48 * 3600 := by
  intro leads
  induction leads with
  | nil => intro m jobs lead h; exact absurd h (List.not_mem_nil _)
  | cons l rest ih =>
    intro m jobs lead hmem hfut
    simp only [schedLeads]
    rcases List.mem_cons.mp hmem with heq | hmem'
    · subst heq
      rw [if_neg (not_le.mpr hfut)]
      by_cases h2 : (lookupKey (pruneScheduledKeys m now) (reminderKey ev.id lead)).isSome = true
      · rw [if_pos h2]
        obtain ⟨ts, hts⟩ := Option.isSome_iff_exists.mp h2
        have hstale := lookupKey_prune_not_stale hts
        exact ⟨ts, schedLeads_lookup_mono now ok ev rest _ _ _ ts hts hstale, hstale⟩
      · rw [if_neg h2]
        have hfresh : lookupKey ((reminderKey ev.id lead, ev.start_ts - lead * 60) ::
            pruneScheduledKeys m now) (reminderKey ev.id lead) =
            some (ev.start_ts - lead * 60) := by
          rw [lookupKey_cons]
          simp
        have hstale : ¬ ev.start_ts - lead * 60 < now - 48 * 3600 := by omega
        by_cases h3 : ok (reminderKey ev.id lead) = true
        · rw [if_pos h3]
          exact ⟨_, schedLeads_lookup_mono now ok ev rest _ _ _ _ hfresh hstale, hstale⟩
        · rw [if_neg h3]
          exact ⟨_, schedLeads_lookup_mono now ok ev rest _ _ _ _ hfresh hstale, hstale⟩
    · by_cases h1 : ev.start_ts - l * 60 ≤ now
      · rw [if_pos h1]
        exact ih m jobs lead hmem' hfut
      · rw [if_neg h1]
        by_cases h2 : (lookupKey (pruneScheduledKeys m now) (reminderKey ev.id l)).isSome = true
        · rw [if_pos h2]
          exact ih _ _ lead hmem' hfut
        · rw [if_neg h2]
          by_cases h3 : ok (reminderKey ev.id l) = true
          · rw [if_pos h3]
            exact ih _ _ lead hmem' hfut
          · rw [if_neg h3]
            exact ih _ _ lead hmem' hfut

/-- After the batch has processed an item with a usable id and a lead whose
run time is still in the future, the dedup dict holds that composite key. -/
theorem schedItems_covers (now : ℤ) (ok : String → Bool) (leads : List ℤ) :
    ∀ (items : List RemItem) (m : KeyMap) (jobs : List RemJob) (ev : RemItem) (lead : ℤ),
      ev ∈ items → ev.id ≠ "" → lead ∈ leads → now < ev.start_ts - lead * 60 →
      ∃ ts, lookupKey (schedItems now ok leads items m jobs).1 (reminderKey ev.id lead) =
          some ts ∧ ¬ ts < now - 48 * 3600 := by
  intro items
  induction items with
  | nil => intro m jobs ev lead h; exact absurd h (List.not_mem_nil _)
  | cons e rest ih =>
    intro m jobs ev lead hmem hid hlead hfut
    simp only [schedItems]
    rcases List.mem_cons.mp hmem with heq | hmem'
    · subst heq
      rw [if_neg hid]
      obtain ⟨ts, hts, hstale⟩ := schedLeads_covers now ok ev leads m jobs lead hlead hfut
      exact ⟨ts, schedItems_lookup_mono now ok leads rest _ _ _ ts hts hstale, hstale⟩
    · by_cases h1 : e.id = ""
      · rw [if_pos h1]
        exact ih m jobs ev lead hmem' hid hlead hfut
      · rw [if_neg h1]
        exact ih _ _ ev lead hmem' hid hlead hfut

/-! ### C5 — no past reminders -/

/-- C5: a scheduling pass registers a job only for a run time strictly after
the pass's `now` (first conjunct), and every dedup entry it creates —
beyond those already in the dict — likewise stores a strictly future run
time: a pair whose `runAt` is at or before `now` is skipped before either
the dict write or the registration. -/
theorem c5_no_past_reminders (items : List RemItem) (leads : List ℤ) (now : ℤ)
    (ok : String → Bool) (m0 : KeyMap) (j : RemJob) (p : String × ℤ)
    (hj : j ∈ (scheduleEventReminders items leads now ok m0).2)
    (hp : p ∈ (scheduleEventReminders items leads now ok m0).1)
    (hpm : p ∉ m0) :
    now < j.runAt ∧ now < p.2 := by
  have hinv0 : JobsInv now m0 [] :=
    ⟨fun j hj => absurd hj (List.not_mem_nil j), List.nodup_nil⟩
  have hinv := schedItems_JobsInv now ok leads items m0 [] hinv0
  constructor
  · exact (hinv.1 j hj).2
  · rcases schedItems_entries now ok leads items m0 [] p hp with hin | hlt
    · exact absurd hin hpm
    · exact hlt

/-- Witness for C5: one item starting at 100 with a 1-minute lead at time 0
yields the job and dict entry with run time 40, strictly after 0. -/
theorem c5_no_past_reminders_witness : (0:ℤ) < 40 ∧ (0:ℤ) < 40 :=
  c5_no_past_reminders [⟨"e", 100⟩] [1] 0 (fun _ => true) []
    ⟨"e|1", 40, "e", 1⟩ ("e|1", 40) (by decide) (by decide) (by decide)

/-! ### C1 — dedup across two passes -/

/-- C1: two scheduling passes over the same batch — the second run at most
48 hours after the first — register each dedup key at most once in total:
the combined job lists carry pairwise distinct keys, and in particular the
second pass registers nothing for any key the first pass registered (it
finds the key in the dict and skips). -/
theorem c1_dedup_two_passes (items : List RemItem) (leads : List ℤ) (now now2 : ℤ)
    (ok1 ok2 : String → Bool) (m0 : KeyMap)
    (h12 : now ≤ now2) (h48 : now2 ≤ now + 48 * 3600) :
    (((scheduleEventReminders items leads now ok1 m0).2 ++
        (scheduleEventReminders items leads now2 ok2
          (scheduleEventReminders items leads now ok1 m0).1).2).map RemJob.key).Nodup ∧
      ∀ j2 ∈ (scheduleEventReminders items leads now2 ok2
          (scheduleEventReminders items leads now ok1 m0).1).2,
        ∀ j1 ∈ (scheduleEventReminders items leads now ok1 m0).2, j2.key ≠ j1.key := by
  simp only [scheduleEventReminders]
  have hinv0 : JobsInv now m0 [] :=
    ⟨fun j hj => absurd hj (List.not_mem_nil j), List.nodup_nil⟩
  have hinv1 := schedItems_JobsInv now ok1 leads items m0 [] hinv0
  have hinv0' : JobsInv now2 (schedItems now ok1 leads items m0 []).1 [] :=
    ⟨fun j hj => absurd hj (List.not_mem_nil j), List.nodup_nil⟩
  have hinv2 := schedItems_JobsInv now2 ok2 leads items _ [] hinv0'
  have hdisj : ∀ j2 ∈ (schedItems now2 ok2 leads items
      (schedItems now ok1 leads items m0 []).1 []).2,
      ∀ j1 ∈ (schedItems now ok1 leads items m0 []).2, j2.key ≠ j1.key := by
    intro j2 hj2 j1 hj1
    obtain ⟨hl1, hr1⟩ := hinv1.1 j1 hj1
    have hstale : ¬ j1.runAt < now2 - 48 * 3600 := by omega
    rcases schedItems_no_rereg now2 ok2 leads items _ [] j1.key j1.runAt hl1 hstale j2 hj2 with
      hin | hne
    · exact absurd hin (List.not_mem_nil _)
    · exact hne
  refine ⟨?_, hdisj⟩
  rw [List.map_append]
  refine List.nodup_append.mpr ⟨hinv1.2, hinv2.2, ?_⟩
  intro a ha1 ha2
  obtain ⟨j1, hj1, hk1⟩ := List.mem_map.mp ha1
  obtain ⟨j2, hj2, hk2⟩ := List.mem_map.mp ha2
  exact hdisj j2 hj2 j1 hj1 (hk2.trans hk1.symm)

/-- Witness for C1: two passes at the same clock over a single item with one
lead; the second pass finds the key and registers nothing, leaving one job
with the key in total. -/
theorem c1_dedup_two_passes_witness :
    (((scheduleEventReminders [⟨"e", 100⟩] [1] 0 (fun _ => true) []).2 ++
        (scheduleEventReminders [⟨"e", 100⟩] [1] 0 (fun _ => true)
          (scheduleEventReminders [⟨"e", 100⟩] [1] 0 (fun _ => true) []).1).2).map
      RemJob.key).Nodup :=
  (c1_dedup_two_passes [⟨"e", 100⟩] [1] 0 0 (fun _ => true) (fun _ => true) []
    (by norm_num) (by norm_num)).1

/-! ### C6 — what the dedup value records and when pruning fires -/

/-- C6 counterexample: the claim says the stored value records the insertion
time and that an entry whose insertion is more than 48 hours old is removed
by the next prune pass.  Concretely: a pass at time 0 over an item starting
at 36000 with a 30-minute lead stores `"e|30" -> 34200` — the scheduled run
timestamp, not the insertion time 0 — and a prune pass at time 176400 (49
hours after insertion, so the claim demands removal) leaves the entry in
place, because pruning compares the stored run timestamp, not the insertion
time. -/
theorem c6_counterexample :
    lookupKey (scheduleEventReminders [⟨"e", 36000⟩] [30] 0 (fun _ => true) []).1 "e|30" =
      some 34200 ∧
    (34200 : ℤ) ≠ 0 ∧
    (176400 : ℤ) - 0 > 48 * 3600 ∧
    lookupKey (pruneScheduledKeys
      (scheduleEventReminders [⟨"e", 36000⟩] [30] 0 (fun _ => true) []).1 176400) "e|30" =
      some 34200 := by
  exact ⟨by decide, by decide, by decide, by decide⟩

/-- C6 amended: the stored value of a dedup entry records the job's scheduled
run timestamp (`run_at.timestamp()`), and a prune pass removes exactly the
entries whose stored run timestamp is more than `maxAgeHours` (48 by
default) before the current time — at which point the key becomes
re-schedulable because it is no longer found. -/
theorem c6_amended_value_is_run_timestamp (items : List RemItem) (leads : List ℤ)
    (now : ℤ) (ok : String → Bool) (m0 : KeyMap) (j : RemJob)
    (hj : j ∈ (scheduleEventReminders items leads now ok m0).2)
    (m : KeyMap) (nowTs maxA : ℤ) (p : String × ℤ) :
    lookupKey (scheduleEventReminders items leads now ok m0).1 j.key = some j.runAt ∧
      (p ∈ pruneScheduledKeys m nowTs maxA ↔ p ∈ m ∧ ¬ p.2 < nowTs - maxA * 3600) := by
  constructor
  · have hinv0 : JobsInv now m0 [] :=
      ⟨fun j hj => absurd hj (List.not_mem_nil j), List.nodup_nil⟩
    exact ((schedItems_JobsInv now ok leads items m0 [] hinv0).1 j hj).1
  · simp [pruneScheduledKeys, List.mem_filter]

/-- Witness for the amended C6 at the counterexample's own numbers. -/
theorem c6_amended_value_is_run_timestamp_witness :
    lookupKey (scheduleEventReminders [⟨"e", 36000⟩] [30] 0 (fun _ => true) []).1 "e|30" =
      some 34200 ∧
      (("e|30", (34200:ℤ)) ∈ pruneScheduledKeys [("e|30", (34200:ℤ))] 176400 48 ↔
        ("e|30", (34200:ℤ)) ∈ [("e|30", (34200:ℤ))] ∧ ¬ (34200:ℤ) < 176400 - 48 * 3600) :=
  c6_amended_value_is_run_timestamp [⟨"e", 36000⟩] [30] 0 (fun _ => true) []
    ⟨"e|30", 34200, "e", 30⟩ (by decide) [("e|30", (34200:ℤ))] 176400 48
    ("e|30", (34200:ℤ))

/-! ### What a failed registration changes — and what it does not -/

/-- The dict evolution never consults the job runner: the final dict is
independent of which registrations succeed, and of the jobs accumulator. -/
theorem schedLeads_keys_ok_indep (now : ℤ) (ok ok2 : String → Bool) (ev : RemItem) :
    ∀ (leads : List ℤ) (m : KeyMap) (jobs jobs2 : List RemJob),
      (schedLeads now ok ev leads m jobs).1 = (schedLeads now ok2 ev leads m jobs2).1 := by
  intro leads
  induction leads with
  | nil => intro m jobs jobs2; rfl
  | cons lead rest ih =>
    intro m jobs jobs2
    simp only [schedLeads]
    by_cases h1 : ev.start_ts - lead * 60 ≤ now
    · rw [if_pos h1, if_pos h1]
      exact ih m jobs jobs2
    · rw [if_neg h1, if_neg h1]
      by_cases h2 : (lookupKey (pruneScheduledKeys m now) (reminderKey ev.id lead)).isSome = true
      · rw [if_pos h2, if_pos h2]
        exact ih _ _ _
      · rw [if_neg h2, if_neg h2]
        by_cases h3 : ok (reminderKey ev.id lead) = true
        · rw [if_pos h3]
          by_cases h4 : ok2 (reminderKey ev.id lead) = true
          · rw [if_pos h4]; exact ih _ _ _
          · rw [if_neg h4]; exact ih _ _ _
        · rw [if_neg h3]
          by_cases h4 : ok2 (reminderKey ev.id lead) = true
          · rw [if_pos h4]; exact ih _ _ _
          · rw [if_neg h4]; exact ih _ _ _

/-- Batch version of `schedLeads_keys_ok_indep`. -/
theorem schedItems_keys_ok_indep (now : ℤ) (ok ok2 : String → Bool) (leads : List ℤ) :
    ∀ (items : List RemItem) (m : KeyMap) (jobs jobs2 : List RemJob),
      (schedItems now ok leads items m jobs).1 = (schedItems now ok2 leads items m jobs2).1 := by
  intro items
  induction items with
  | nil => intro m jobs jobs2; rfl
  | cons ev rest ih =>
    intro m jobs jobs2
    simp only [schedItems]
    by_cases h1 : ev.id = ""
    · rw [if_pos h1, if_pos h1]
      exact ih m jobs jobs2
    · rw [if_neg h1, if_neg h1]
      rw [schedLeads_keys_ok_indep now ok ok2 ev leads m jobs jobs2]
      exact ih _ _ _

/-- The jobs accumulator only collects: running with accumulator `jobs` is
running with an empty accumulator and prepending `jobs`. -/
theorem schedLeads_jobs_acc (now : ℤ) (ok : String → Bool) (ev : RemItem) :
    ∀ (leads : List ℤ) (m : KeyMap) (jobs : List RemJob),
      (schedLeads now ok ev leads m jobs).2 = jobs ++ (schedLeads now ok ev leads m []).2 := by
  intro leads
  induction leads with
  | nil => intro m jobs; simp [schedLeads]
  | cons lead rest ih =>
    intro m jobs
    simp only [schedLeads]
    by_cases h1 : ev.start_ts - lead * 60 ≤ now
    · rw [if_pos h1, if_pos h1]
      exact ih m jobs
    · rw [if_neg h1, if_neg h1]
      by_cases h2 : (lookupKey (pruneScheduledKeys m now) (reminderKey ev.id lead)).isSome = true
      · rw [if_pos h2, if_pos h2]
        exact ih _ jobs
      · rw [if_neg h2, if_neg h2]
        by_cases h3 : ok (reminderKey ev.id lead) = true
        · rw [if_pos h3, if_pos h3]
          rw [ih ((reminderKey ev.id lead, ev.start_ts - lead * 60) :: pruneScheduledKeys m now)
              (jobs ++ [RemJob.mk (reminderKey ev.id lead) (ev.start_ts - lead * 60) ev.id lead]),
            ih ((reminderKey ev.id lead, ev.start_ts - lead * 60) :: pruneScheduledKeys m now)
              ([] ++ [RemJob.mk (reminderKey ev.id lead) (ev.start_ts - lead * 60) ev.id lead])]
          simp
        · rw [if_neg h3, if_neg h3]
          exact ih _ jobs

/-- Batch version of `schedLeads_jobs_acc`. -/
theorem schedItems_jobs_acc (now : ℤ) (ok : String → Bool) (leads : List ℤ) :
    ∀ (items : List RemItem) (m : KeyMap) (jobs : List RemJob),
      (schedItems now ok leads items m jobs).2 =
        jobs ++ (schedItems now ok leads items m []).2 := by
  intro items
  induction items with
  | nil => intro m jobs; simp [schedItems]
  | cons ev rest ih =>
    intro m jobs
    simp only [schedItems]
    by_cases h1 : ev.id = ""
    · rw [if_pos h1, if_pos h1]
      exact ih m jobs
    · rw [if_neg h1, if_neg h1]
      rw [schedLeads_keys_ok_indep now ok ok ev leads m jobs []]
      rw [ih _ (schedLeads now ok ev leads m jobs).2,
        ih _ (schedLeads now ok ev leads m []).2]
      rw [schedLeads_jobs_acc now ok ev leads m jobs]
      simp

/-- A pass with a partially failing job runner registers exactly the jobs of
the all-success pass whose keys the runner accepted: the failed keys are
missing and everything else is identical. -/
theorem schedLeads_jobs_filter (now : ℤ) (ok : String → Bool) (ev : RemItem) :
    ∀ (leads : List ℤ) (m : KeyMap),
      (schedLeads now ok ev leads m []).2 =
        ((schedLeads now (fun _ => true) ev leads m []).2).filter (fun j => ok j.key) := by
  intro leads
  induction leads with
  | nil => intro m; rfl
  | cons lead rest ih =>
    intro m
    simp only [schedLeads]
    by_cases h1 : ev.start_ts - lead * 60 ≤ now
    · rw [if_pos h1, if_pos h1]
      exact ih m
    · rw [if_neg h1, if_neg h1]
      by_cases h2 : (lookupKey (pruneScheduledKeys m now) (reminderKey ev.id lead)).isSome = true
      · rw [if_pos h2, if_pos h2]
        exact ih _
      · rw [if_neg h2, if_neg h2]
        simp only [if_true]
        rw [schedLeads_jobs_acc now (fun _ => true) ev rest
          ((reminderKey ev.id lead, ev.start_ts - lead * 60) :: pruneScheduledKeys m now)
          ([] ++ [RemJob.mk (reminderKey ev.id lead) (ev.start_ts - lead * 60) ev.id lead])]
        by_cases h3 : ok (reminderKey ev.id lead) = true
        · rw [if_pos h3]
          rw [schedLeads_jobs_acc now ok ev rest
            ((reminderKey ev.id lead, ev.start_ts - lead * 60) :: pruneScheduledKeys m now)
            ([] ++ [RemJob.mk (reminderKey ev.id lead) (ev.start_ts - lead * 60) ev.id lead])]
          rw [ih ((reminderKey ev.id lead, ev.start_ts - lead * 60) :: pruneScheduledKeys m now)]
          simp [h3]
        · rw [if_neg h3]
          rw [ih ((reminderKey ev.id lead, ev.start_ts - lead * 60) :: pruneScheduledKeys m now)]
          have h3' : ok (reminderKey ev.id lead) = false := by
            cases hb : ok (reminderKey ev.id lead)
            · rfl
            · exact absurd hb h3
          simp [h3']

/-- Batch version of `schedLeads_jobs_filter`. -/
theorem schedItems_jobs_filter (now : ℤ) (ok : String → Bool) (leads : List ℤ) :
    ∀ (items : List RemItem) (m : KeyMap),
      (schedItems now ok leads items m []).2 =
        ((schedItems now (fun _ => true) leads items m []).2).filter (fun j => ok j.key) := by
  intro items
  induction items with
  | nil => intro m; rfl
  | cons ev rest ih =>
    intro m
    simp only [schedItems]
    by_cases h1 : ev.id = ""
    · rw [if_pos h1, if_pos h1]
      exact ih m
    · rw [if_neg h1, if_neg h1]
      rw [schedItems_jobs_acc now ok leads rest _ (schedLeads now ok ev leads m []).2]
      rw [schedItems_jobs_acc now (fun _ => true) leads rest _
        (schedLeads now (fun _ => true) ev leads m []).2]
      rw [schedLeads_keys_ok_indep now ok (fun _ => true) ev leads m [] []]
      rw [ih _]
      rw [schedLeads_jobs_filter now ok ev leads m]
      simp

/-! ### C10 — key recorded before registration is attempted -/

/-- C10: the dedup key is written to the dict before `sched.add_job` is
attempted.  The registration for a `(item, lead)` pair is only ever attempted
when the key is not live in the cache beforehand (a live key is found and
skipped before `add_job` is reached), which `hm0` states.  When that
registration raises (`ok` reports failure on its key): the key is
nonetheless present in the final dict, bound to a strictly future run
timestamp (1); no job for it was registered in this pass (2); a later pass
over the same batch — run at any clock `now2` up to 48 hours later, so both
pruning and the past-check act at the later time — registers nothing for it
either: it finds the still-retained key and skips (3); and the failure is
otherwise invisible: the final dict equals the all-success dict (4) and the
registered jobs are exactly the all-success jobs whose keys the runner
accepted, so the batch continued with the remaining items (5). -/
theorem c10_failed_registration_keeps_key (items : List RemItem) (leads : List ℤ)
    (now now2 : ℤ) (ok ok2 : String → Bool) (m0 : KeyMap) (ev : RemItem) (lead : ℤ)
    (h12 : now ≤ now2) (h48 : now2 ≤ now + 48 * 3600)
    (hev : ev ∈ items) (hid : ev.id ≠ "") (hlead : lead ∈ leads)
    (hfut : now < ev.start_ts - lead * 60)
    (hfail : ok (reminderKey ev.id lead) = false)
    (hm0 : ∀ ts, (reminderKey ev.id lead, ts) ∈ m0 → ts < now - 48 * 3600) :
    (∃ ts, lookupKey (scheduleEventReminders items leads now ok m0).1
        (reminderKey ev.id lead) = some ts ∧ now < ts) ∧
      (∀ j ∈ (scheduleEventReminders items leads now ok m0).2,
        j.key ≠ reminderKey ev.id lead) ∧
      (∀ j ∈ (scheduleEventReminders items leads now2 ok2
          (scheduleEventReminders items leads now ok m0).1).2,
        j.key ≠ reminderKey ev.id lead) ∧
      (scheduleEventReminders items leads now ok m0).1 =
        (scheduleEventReminders items leads now (fun _ => true) m0).1 ∧
      (scheduleEventReminders items leads now ok m0).2 =
        ((scheduleEventReminders items leads now (fun _ => true) m0).2).filter
          (fun j => ok j.key) := by
  simp only [scheduleEventReminders]
  obtain ⟨ts, hts, hstale⟩ :=
    schedItems_covers now ok leads items m0 [] ev lead hev hid hlead hfut
  have htsfut : now < ts := by
    rcases schedItems_entries now ok leads items m0 [] (reminderKey ev.id lead, ts)
        (lookupKey_mem hts) with hin | hlt
    · exact absurd (hm0 ts hin) hstale
    · exact hlt
  refine ⟨⟨ts, hts, htsfut⟩, ?_, ?_, ?_, ?_⟩
  · intro j hj
    rcases schedItems_jobs_ok now ok leads items m0 [] j hj with hin | hok
    · exact absurd hin (List.not_mem_nil _)
    · intro heq
      rw [heq, hfail] at hok
      exact Bool.noConfusion hok
  · intro j hj
    have hstale2 : ¬ ts < now2 - 48 * 3600 := by omega
    rcases schedItems_no_rereg now2 ok2 leads items _ []
        (reminderKey ev.id lead) ts hts hstale2 j hj with hin | hne
    · exact absurd hin (List.not_mem_nil _)
    · exact hne
  · exact schedItems_keys_ok_indep now ok (fun _ => true) leads items m0 [] []
  · exact schedItems_jobs_filter now ok leads items m0

/-- Witness for C10: a single item whose only registration fails at time 0;
the next poll, 300 seconds later (the 5-minute cadence), registers nothing
for the key, and the pass equals the all-success pass with the key filtered
out. -/
theorem c10_failed_registration_keeps_key_witness :
    (scheduleEventReminders [⟨"e", 100000⟩] [1] 0 (fun _ => false) []).1 =
      (scheduleEventReminders [⟨"e", 100000⟩] [1] 0 (fun _ => true) []).1 ∧
    (scheduleEventReminders [⟨"e", 100000⟩] [1] 0 (fun _ => false) []).2 =
      ((scheduleEventReminders [⟨"e", 100000⟩] [1] 0 (fun _ => true) []).2).filter
        (fun j => (fun _ => false) j.key) :=
  ⟨(c10_failed_registration_keeps_key [⟨"e", 100000⟩] [1] 0 300 (fun _ => false)
      (fun _ => true) [] ⟨"e", 100000⟩ 1 (by norm_num) (by norm_num) (by decide) (by decide)
      (by decide) (by decide) rfl (by simp)).2.2.2.1,
   (c10_failed_registration_keeps_key [⟨"e", 100000⟩] [1] 0 300 (fun _ => false)
      (fun _ => true) [] ⟨"e", 100000⟩ 1 (by norm_num) (by norm_num) (by decide) (by decide)
      (by decide) (by decide) rfl (by simp)).2.2.2.2⟩

/-! ### C7 — calendar-mirror upsert idempotence -/

/-- Searching past a prefix with no match continues in the suffix. -/
theorem find?_append_none {α : Type} {p : α → Bool} {l1 l2 : List α}
    (h : l1.find? p = none) : (l1 ++ l2).find? p = l2.find? p := by
  induction l1 with
  | nil => rfl
  | cons a rest ih =>
    cases hb : p a with
    | true =>
      rw [List.find?_cons_of_pos rest hb] at h
      exact Option.noConfusion h
    | false =>
      rw [List.find?_cons_of_neg rest (by simp [hb])] at h
      rw [List.cons_append, List.find?_cons_of_neg (rest ++ l2) (by simp [hb])]
      exact ih h


/-- Computes the insert branch of the upsert: no row for the key exists, so a
fresh row with the next id and the calendar note is appended. -/
theorem upsert_insert (t : SchedTable) (userId item sourceId : String) (due : ℤ)
    (hnone : t.rows.find? (schedKeyMatch userId sourceId due) = none) :
    upsertScheduleFromCalendar t userId item due sourceId =
      ⟨t.rows ++ [⟨t.nextId, userId, item, due, "calendar:" ++ sourceId⟩], t.nextId + 1⟩ := by
  unfold upsertScheduleFromCalendar
  rw [hnone]
  rfl

/-- Computes the update branch of the upsert: a row for the key exists, so
that row's `item` and `note` are rewritten in place and no id is consumed. -/
theorem upsert_update (t : SchedTable) (userId item sourceId : String) (due : ℤ)
    (row : SchedRow)
    (hfind : t.rows.find? (schedKeyMatch userId sourceId due) = some row) :
    upsertScheduleFromCalendar t userId item due sourceId =
      ⟨t.rows.map (fun r =>
        if r.rid = row.rid then { r with item := item, note := "calendar:" ++ sourceId }
        else r), t.nextId⟩ := by
  unfold upsertScheduleFromCalendar
  rw [hfind]
  rfl

/-- C7: starting from a well-formed table with no row for the key
`(userId, "calendar:"+sourceId, due)`, the first upsert appends exactly one
row carrying the key, and a second upsert with the identical key updates that
same row (same primary key, new `item`) in place: the row set is otherwise
unchanged, exactly one row for the key remains, and no new id is allocated. -/
theorem c7_upsert_idempotent (t : SchedTable) (userId i1 i2 sourceId : String)
    (due : ℤ) (hwf : TableWF t)
    (habs : ∀ r ∈ t.rows, schedKeyMatch userId sourceId due r = false) :
    (upsertScheduleFromCalendar t userId i1 due sourceId).rows =
        t.rows ++ [⟨t.nextId, userId, i1, due, "calendar:" ++ sourceId⟩] ∧
      (upsertScheduleFromCalendar (upsertScheduleFromCalendar t userId i1 due sourceId)
          userId i2 due sourceId).rows =
        t.rows ++ [⟨t.nextId, userId, i2, due, "calendar:" ++ sourceId⟩] ∧
      ((upsertScheduleFromCalendar (upsertScheduleFromCalendar t userId i1 due sourceId)
          userId i2 due sourceId).rows.filter (schedKeyMatch userId sourceId due)).length = 1 ∧
      (upsertScheduleFromCalendar (upsertScheduleFromCalendar t userId i1 due sourceId)
          userId i2 due sourceId).nextId =
        (upsertScheduleFromCalendar t userId i1 due sourceId).nextId := by
  have hnone : t.rows.find? (schedKeyMatch userId sourceId due) = none := by
    rw [List.find?_eq_none]
    intro r hr
    simp [habs r hr]
  have hnewmatch : schedKeyMatch userId sourceId due
      ⟨t.nextId, userId, i1, due, "calendar:" ++ sourceId⟩ = true := by
    simp [schedKeyMatch]
  have h1 := upsert_insert t userId i1 sourceId due hnone
  have hfind2 : (t.rows ++ [(⟨t.nextId, userId, i1, due, "calendar:" ++ sourceId⟩ :
      SchedRow)]).find? (schedKeyMatch userId sourceId due) =
      some ⟨t.nextId, userId, i1, due, "calendar:" ++ sourceId⟩ := by
    rw [find?_append_none hnone]
    exact List.find?_cons_of_pos [] hnewmatch
  have h2 := upsert_update (upsertScheduleFromCalendar t userId i1 due sourceId)
    userId i2 sourceId due ⟨t.nextId, userId, i1, due, "calendar:" ++ sourceId⟩
    (by rw [h1]; exact hfind2)
  have hmap1 : ∀ rows : List SchedRow, (∀ r ∈ rows, r.rid < t.nextId) →
      rows.map (fun r =>
        if r.rid = t.nextId then { r with item := i2, note := "calendar:" ++ sourceId }
        else r) = rows := by
    intro rows hlt
    have hcg := List.map_congr_left (l := rows)
      (f := fun r : SchedRow =>
        if r.rid = t.nextId then { r with item := i2, note := "calendar:" ++ sourceId }
        else r)
      (g := fun r => r)
      (fun r hr => by
        have hne : ¬ r.rid = t.nextId := by
          have := hlt r hr
          omega
        simp [hne])
    rw [hcg, List.map_id']
  have hrows2 : (upsertScheduleFromCalendar (upsertScheduleFromCalendar t userId i1 due
      sourceId) userId i2 due sourceId).rows =
      t.rows ++ [⟨t.nextId, userId, i2, due, "calendar:" ++ sourceId⟩] := by
    rw [h2, h1]
    simp only [List.map_append]
    rw [hmap1 t.rows hwf.2]
    simp
  refine ⟨by rw [h1], hrows2, ?_, by rw [h2, h1]⟩
  rw [hrows2, List.filter_append]
  have hfilter0 : t.rows.filter (schedKeyMatch userId sourceId due) = [] := by
    rw [List.filter_eq_nil_iff]
    intro r hr
    simp [habs r hr]
  rw [hfilter0]
  simp [schedKeyMatch]

/-- Witness for C7 on a concrete empty table: the first upsert inserts the
row, and after the second upsert exactly one row carries the key. -/
theorem c7_upsert_idempotent_witness :
    (upsertScheduleFromCalendar ⟨[], 1⟩ "u" "A" 10 "s").rows =
      ([] : List SchedRow) ++ [⟨1, "u", "A", 10, "calendar:" ++ "s"⟩] ∧
    ((upsertScheduleFromCalendar (upsertScheduleFromCalendar ⟨[], 1⟩ "u" "A" 10 "s")
        "u" "B" 10 "s").rows.filter (schedKeyMatch "u" "s" 10)).length = 1 :=
  ⟨(c7_upsert_idempotent ⟨[], 1⟩ "u" "A" "B" "s" 10 ⟨List.nodup_nil, by simp⟩ (by simp)).1,
   (c7_upsert_idempotent ⟨[], 1⟩ "u" "A" "B" "s" 10 ⟨List.nodup_nil, by simp⟩ (by simp)).2.2.1⟩

/-! ### C8 — the rebuilt day plan is sorted -/

/-- C8: every rebuild of the day plan returns a list sorted ascending by
start time, for any combination of calendar-sourced and local-store-sourced
items; the cache receives exactly the returned list, tagged with today's
date, and the returned list is a permutation of the merged inputs. -/
theorem c8_day_plan_sorted (userId : String) (calItems localItems : List AgendaItem)
    (todayStr : String) (table : SchedTable) :
    List.Sorted agendaLE (rebuildDayPlan userId calItems localItems todayStr table).1 ∧
      (rebuildDayPlan userId calItems localItems todayStr table).2.1.day_plan =
        (rebuildDayPlan userId calItems localItems todayStr table).1 ∧
      (rebuildDayPlan userId calItems localItems todayStr table).2.1.day_plan_date =
        some todayStr ∧
      (rebuildDayPlan userId calItems localItems todayStr table).1.Perm
        (calItems ++ localItems) := by
  refine ⟨?_, rfl, rfl, ?_⟩
  · exact List.sorted_insertionSort agendaLE (calItems ++ localItems)
  · exact List.perm_insertionSort agendaLE (calItems ++ localItems)

/-! ### Session-loop lemmas, C3 and C4 -/

/-- `check_sleep_mode` never touches the silent-turn counter or the
first-wakeup flag. -/
theorem checkSleepMode_preserves (s : SessState) (text : String) :
    (checkSleepMode s text).state.silentTurns = s.silentTurns ∧
      (checkSleepMode s text).state.firstWakeup = s.firstWakeup := by
  simp only [checkSleepMode]
  split
  · exact ⟨rfl, rfl⟩
  · split
    · exact ⟨rfl, rfl⟩
    · split
      · exact ⟨rfl, rfl⟩
      · exact ⟨rfl, rfl⟩

/-- C4 counterexample: an ordinary wake-word-listening iteration (idle state,
nothing heard, no playback) calls `main_watchdog.beat()` twice — once at the
loop top (src/app.py line 309) and once right after the idle listen (line
325) — so "exactly once per iteration" fails. -/
theorem c4_counterexample :
    (loopIter false "" "" "Good morning" (fun _ => "question") (fun _ _ c => (c, []))
      ⟨false, 0, true, false⟩).beats = 2 ∧ (2 : ℕ) ≠ 1 :=
  ⟨rfl, by norm_num⟩

/-- Lifts a beat count through a branch: if both arms of an `if` beat `n`
times, so does the `if`. -/
theorem beats_ite (c : Prop) [inst : Decidable c] (a b : IterOut) (n : ℕ)
    (ha : a.beats = n) (hb : b.beats = n) : (ite c a b).beats = n := by
  by_cases h : c
  · rw [if_pos h]
    exact ha
  · rw [if_neg h]
    exact hb

/-- C4 amended: every iteration beats at least once; it beats exactly once on
the sleep-requested skip branch (which performs no listen), and exactly twice
on every other branch — once at the loop top and once immediately after the
`listen_once` call of that branch returns. -/
theorem c4_amended_beats (spotify : Bool) (idleT activeT greet : String)
    (detectIntent : String → String)
    (dispatchTail : String → String → Bool → Bool × List String) (s0 : SessState) :
    (loopIter spotify idleT activeT greet detectIntent dispatchTail s0).beats =
      (if s0.conversationActive && s0.sleepRequested then 1 else 2) ∧
    1 ≤ (loopIter spotify idleT activeT greet detectIntent dispatchTail s0).beats := by
  have h : (loopIter spotify idleT activeT greet detectIntent dispatchTail s0).beats =
      (if s0.conversationActive && s0.sleepRequested then 1 else 2) := by
    rcases s0 with ⟨ca, st, fw, sr⟩
    cases ca with
    | true =>
      cases sr with
      | true => rfl
      | false =>
        show (ite _ _ _ : IterOut).beats = 2
        repeat' (first | rfl | apply beats_ite)
    | false =>
      cases sr with
      | true =>
        show (ite _ _ _ : IterOut).beats = 2
        repeat' (first | rfl | apply beats_ite)
      | false =>
        show (ite _ _ _ : IterOut).beats = 2
        repeat' (first | rfl | apply beats_ite)
  refine ⟨h, ?_⟩
  rw [h]
  split <;> norm_num

/-- Lifts the silent-turn count through a branch: if both arms of an `if`
agree on it, so does the `if`. -/
theorem silent_ite (c : Prop) [inst : Decidable c] (a b : IterOut) (n : ℕ)
    (ha : a.state.silentTurns = n) (hb : b.state.silentTurns = n) :
    (ite c a b).state.silentTurns = n := by
  by_cases h : c
  · rw [if_pos h]
    exact ha
  · rw [if_neg h]
    exact hb

/-- A non-empty utterance in Active state leaves the silent-turn counter at 0
no matter which of the dispatch paths the iteration then takes: the counter
is cleared right after the listen and nothing later in the iteration touches
it. -/
theorem loopIter_nonempty_resets (spotify : Bool) (idleT activeT greet : String)
    (detectIntent : String → String)
    (dispatchTail : String → String → Bool → Bool × List String)
    (st : ℕ) (fw : Bool) (hu : activeT ≠ "") :
    (loopIter spotify idleT activeT greet detectIntent dispatchTail
      ⟨true, st, fw, false⟩).state.silentTurns = 0 := by
  show (ite _ _ _ : IterOut).state.silentTurns = 0
  rw [if_neg hu]
  show (ite _ _ _ : IterOut).state.silentTurns = 0
  apply silent_ite
  · exact (checkSleepMode_preserves _ _).1
  · apply silent_ite
    · rfl
    · rfl

/-- C3: silent-turn expiry.  Starting Active with a zero counter, three
consecutive empty listen results leave the session Active with counters 1
then 2 after the first two, and the third resets the counter to 0, drops to
Idle, and speaks the idle notice exactly when playback is not active (the
notice is suppressed when it is, but the transition happens regardless);
moreover any non-empty input in any Active state — whatever the counter
stands at, in particular mid-window at 1 or 2 — resets the counter to 0. -/
theorem c3_silent_turn_expiry (spotify : Bool) (idleT greet utter : String)
    (detectIntent : String → String)
    (dispatchTail : String → String → Bool → Bool × List String)
    (s s' : SessState) (hA : s.conversationActive = true) (hs : s.sleepRequested = false)
    (h0 : s.silentTurns = 0) (hu : utter ≠ "")
    (hA' : s'.conversationActive = true) (hs' : s'.sleepRequested = false) :
    ((loopIter spotify idleT "" greet detectIntent dispatchTail s).state.conversationActive
        = true ∧
      (loopIter spotify idleT "" greet detectIntent dispatchTail s).state.silentTurns = 1 ∧
      (loopIter spotify idleT "" greet detectIntent dispatchTail s).spoken = []) ∧
    ((loopIter spotify idleT "" greet detectIntent dispatchTail
        (loopIter spotify idleT "" greet detectIntent dispatchTail s).state).state.conversationActive = true ∧
      (loopIter spotify idleT "" greet detectIntent dispatchTail
        (loopIter spotify idleT "" greet detectIntent dispatchTail s).state).state.silentTurns = 2 ∧
      (loopIter spotify idleT "" greet detectIntent dispatchTail
        (loopIter spotify idleT "" greet detectIntent dispatchTail s).state).spoken = []) ∧
    ((loopIter spotify idleT "" greet detectIntent dispatchTail
        (loopIter spotify idleT "" greet detectIntent dispatchTail
          (loopIter spotify idleT "" greet detectIntent dispatchTail s).state).state).state.silentTurns = 0 ∧
      (loopIter spotify idleT "" greet detectIntent dispatchTail
        (loopIter spotify idleT "" greet detectIntent dispatchTail
          (loopIter spotify idleT "" greet detectIntent dispatchTail s).state).state).state.conversationActive = false ∧
      (loopIter spotify idleT "" greet detectIntent dispatchTail
        (loopIter spotify idleT "" greet detectIntent dispatchTail
          (loopIter spotify idleT "" greet detectIntent dispatchTail s).state).state).spoken =
        (if spotify then [] else [idleNotice])) ∧
    (loopIter spotify idleT utter greet detectIntent dispatchTail s').state.silentTurns = 0 := by
  rcases s with ⟨ca, st, fw, sr⟩
  obtain rfl : ca = true := hA
  obtain rfl : sr = false := hs
  obtain rfl : st = 0 := h0
  rcases s' with ⟨ca', st', fw', sr'⟩
  obtain rfl : ca' = true := hA'
  obtain rfl : sr' = false := hs'
  exact ⟨⟨rfl, rfl, rfl⟩, ⟨rfl, rfl, rfl⟩, ⟨rfl, rfl, rfl⟩,
    loopIter_nonempty_resets spotify idleT utter greet detectIntent dispatchTail st' fw' hu⟩

/-- Witness for C3 at concrete inputs: after three empty turns from Active
the session is Idle, and a non-empty turn arriving mid-window — with the
counter already at 2 — resets the counter to 0. -/
theorem c3_silent_turn_expiry_witness :
    (loopIter false "" "" "G" (fun _ => "question") (fun _ _ c => (c, []))
      (loopIter false "" "" "G" (fun _ => "question") (fun _ _ c => (c, []))
        (loopIter false "" "" "G" (fun _ => "question") (fun _ _ c => (c, []))
          ⟨true, 0, false, false⟩).state).state).state.conversationActive = false ∧
    (loopIter false "" "hello" "G" (fun _ => "question") (fun _ _ c => (c, []))
      ⟨true, 2, false, false⟩).state.silentTurns = 0 :=
  ⟨(c3_silent_turn_expiry false "" "G" "hello" (fun _ => "question") (fun _ _ c => (c, []))
      ⟨true, 0, false, false⟩ ⟨true, 2, false, false⟩ rfl rfl rfl (by decide) rfl rfl).2.2.1.2.1,
   (c3_silent_turn_expiry false "" "G" "hello" (fun _ => "question") (fun _ _ c => (c, []))
      ⟨true, 0, false, false⟩ ⟨true, 2, false, false⟩ rfl rfl rfl (by decide) rfl rfl).2.2.2⟩
